import Mathlib

/-!
# Verification of the presentation-archive interchange engine

Shallow embedding of the PPTX import pipeline of `src/views/ReportBuilder.tsx`
(`handlePptxUpload` and its helpers `getChild`/`getChildren`) and of the export
placement computation of `generateCustomReport` (`src/utils/report.ts`).

Modelling conventions:
* JavaScript numbers that can be `NaN` (results of `parseInt` on attribute
  strings, and everything computed from them) are modelled by `JsNum`:
  either an integer or `nan`.  `NaN` comparisons (`<`, `>`) are `false`,
  `Math.max` with a `NaN` argument is `nan`, and arithmetic propagates `nan`.
* `emu * scaleFactor` is computed in exact rational arithmetic (the float
  round-off of the real computation is far below the rounding granularity
  for the magnitudes involved).
* XML nodes are represented by records holding exactly the children and
  attributes the source reads through its namespace-agnostic lookups
  (`getChild` / `getChildren` / `getAttribute`); an attribute that is absent
  is `none`.  `parseInt` of a present attribute is an integer, or `nan`
  for a non-numeric string.
* Text content is modelled as `List Char` (JS strings); `length` equality
  on ASCII content coincides with JS `String.length`.
-/

/-- A JavaScript number restricted to the values reachable in the import
pipeline: an integer, or `NaN` (the `parseInt` result on a non-numeric
attribute, propagated through arithmetic). -/
inductive JsNum where
  | num : ℤ → JsNum
  | nan : JsNum
deriving DecidableEq, Repr

/-- JS `Math.round`: round half toward positive infinity. -/
def jsRound (q : ℚ) : ℤ := ⌊q + 1/2⌋

/-- `CANVAS_WIDTH` of `ReportBuilder.tsx`. -/
def CANVAS_WIDTH : ℤ := 960

/-- `CANVAS_HEIGHT` of `ReportBuilder.tsx`. -/
def CANVAS_HEIGHT : ℤ := 540

/-- `DEFAULT_PPT_WIDTH_EMU` of `ReportBuilder.tsx` (10 inches). -/
def DEFAULT_PPT_WIDTH_EMU : ℤ := 9144000

/-- Numeric core of `emuToPx`: `Math.round(emu * scaleFactor)` with
`scaleFactor = canvasW / pptWidthEmu`, computed in integer arithmetic
(`⌊q + 1/2⌋ = (2n + d) fdiv 2d` for `q = n/d`); `emuToPxZ_eq_round` below
shows it agrees with the rational-arithmetic rounding for every positive
document width. -/
def emuToPxZ (canvasW pptWidthEmu v : ℤ) : ℤ :=
  Int.fdiv (2 * (v * canvasW) + pptWidthEmu) (2 * pptWidthEmu)

/-- `const emuToPx = (emu) => Math.round(emu * scaleFactor)`, lifted to
`JsNum` (`NaN` input yields `NaN`). -/
def emuToPx (canvasW pptWidthEmu : ℤ) : JsNum → JsNum
  | .num v => .num (emuToPxZ canvasW pptWidthEmu v)
  | .nan => .nan

/-- JS comparison `x < c` for a possibly-`NaN` left operand: any comparison
with `NaN` is `false`. -/
def jsLt : JsNum → ℤ → Bool
  | .num v, c => v < c
  | .nan, _ => false

/-- JS comparison `x >= c`; `false` when `x` is `NaN`. -/
def jsGe : JsNum → ℤ → Bool
  | .num v, c => c ≤ v
  | .nan, _ => false

/-- JS `Math.max(c, x)`: `NaN` if `x` is `NaN`. -/
def jsMax (c : ℤ) : JsNum → JsNum
  | .num v => .num (max c v)
  | .nan => .nan

theorem jsRound_mono {q₁ q₂ : ℚ} (h : q₁ ≤ q₂) : jsRound q₁ ≤ jsRound q₂ :=
  Int.floor_le_floor (by linarith)

theorem floor_intCast_div_pos (N D : ℤ) (hD : 0 < D) : ⌊(N : ℚ) / (D : ℚ)⌋ = N.fdiv D := by
  have h1 : ((D.toNat : ℕ) : ℚ) = (D : ℚ) := by
    exact_mod_cast congrArg (fun z : ℤ => (z : ℚ)) (Int.toNat_of_nonneg hD.le)
  rw [← h1, Rat.floor_intCast_div_natCast, Int.fdiv_eq_ediv _ hD.le]
  congr 1
  exact Int.toNat_of_nonneg hD.le

/-- For a positive document width the integer-arithmetic conversion is
exactly `Math.round(emu * scaleFactor)`. -/
theorem emuToPxZ_eq_round (canvasW pw v : ℤ) (h : 0 < pw) :
    emuToPxZ canvasW pw v = jsRound ((v * canvasW : ℚ) / (pw : ℚ)) := by
  unfold emuToPxZ jsRound
  have h2 : (0 : ℤ) < 2 * pw := by linarith
  have hpq : ((pw : ℚ)) ≠ 0 := by positivity
  have hq : ((v * canvasW : ℤ) : ℚ) / (pw : ℚ) + 1/2
      = ((2 * (v * canvasW) + pw : ℤ) : ℚ) / ((2 * pw : ℤ) : ℚ) := by
    push_cast
    field_simp
    ring
  rw [← floor_intCast_div_pos _ _ h2, ← hq]
  push_cast
  ring_nf

/-- **C4.** The import unit conversion satisfies
`pixelsFromNative(value) = round(value * scaleFactor)` with
`scaleFactor = canvasWidthPx / documentNativeWidth`; for every positive
native width it is monotonic in the value and maps `0` to `0`; and with
`cx = 9144000` and canvas width `960`, native offset `914400` converts to
exactly `96` pixels. -/
theorem emuToPx_contract :
    (∀ (cx v : ℤ), 0 < cx →
      emuToPx 960 cx (.num v) = .num (jsRound ((v : ℚ) * (960 / (cx : ℚ))))) ∧
    (∀ (cx v₁ v₂ : ℤ), 0 < cx → v₁ ≤ v₂ →
      emuToPxZ 960 cx v₁ ≤ emuToPxZ 960 cx v₂) ∧
    (∀ cx : ℤ, 0 < cx → emuToPx 960 cx (.num 0) = .num 0) ∧
    emuToPx 960 9144000 (.num 914400) = .num 96 := by
  refine ⟨?_, ?_, ?_, ?_⟩
  · intro cx v hcx
    simp only [emuToPx, JsNum.num.injEq]
    rw [emuToPxZ_eq_round _ _ _ hcx]
    congr 1
    ring
  · intro cx v₁ v₂ hcx h
    have hcq : (0 : ℚ) < (cx : ℚ) := by exact_mod_cast hcx
    have hv : (v₁ : ℚ) ≤ (v₂ : ℚ) := by exact_mod_cast h
    rw [emuToPxZ_eq_round _ _ _ hcx, emuToPxZ_eq_round _ _ _ hcx]
    apply jsRound_mono
    gcongr
  · intro cx hcx
    simp only [emuToPx, JsNum.num.injEq]
    rw [emuToPxZ_eq_round _ _ _ hcx]
    simp only [jsRound]
    norm_num
  · decide

/-- Closed instance of `emuToPx_contract`: all hypotheses discharged at
`cx = 9144000`, `v₁ = 0`, `v₂ = 914400`. -/
theorem emuToPx_contract_witness :
    emuToPxZ 960 9144000 0 ≤ emuToPxZ 960 9144000 914400 :=
  emuToPx_contract.2.1 9144000 0 914400 (by decide) (by decide)

/-! ## Shape-tree data model

Records hold exactly what `handlePptxUpload` reads through the
namespace-agnostic `getChild`/`getChildren` lookups and `getAttribute`. -/

/-- `a:latin` inside run properties; `typeface` attribute. -/
structure Latin where
  typeface : Option String
deriving DecidableEq, Repr

/-- `a:srgbClr` inside a solid fill; `val` attribute. -/
structure SrgbClr where
  val : Option String
deriving DecidableEq, Repr

/-- `a:solidFill` inside run properties; contains an `srgbClr` child when the
fill is a direct RGB fill (absent for gradient/theme fills). -/
structure SolidFill where
  srgbClr : Option SrgbClr
deriving DecidableEq, Repr

/-- Run properties (`a:rPr`).  `sz` is `parseInt` of the `sz` attribute when
present; `b`/`i` are the raw attribute strings (the source compares them with
`"1"`). -/
structure RunProps where
  sz : Option ℤ
  b : Option String
  i : Option String
  solidFill : Option SolidFill
  latin : Option Latin
deriving DecidableEq, Repr

/-- A text run (`a:r`): optional `a:t` child (its `textContent`) and optional
run properties. -/
structure Run where
  t : Option (List Char)
  rPr : Option RunProps
deriving DecidableEq, Repr

/-- A paragraph (`a:p`): optional `a:pPr` child whose payload is its optional
`algn` attribute, plus the list of runs. -/
structure Paragraph where
  pPr : Option (Option String)
  runs : List Run
deriving DecidableEq, Repr

/-- `a:blip` inside a picture fill; the two historical embed-id attribute
names `r:embed` and `embed`. -/
structure Blip where
  rEmbed : Option String
  embed : Option String
deriving DecidableEq, Repr

/-- `p:blipFill` of a picture shape. -/
structure BlipFill where
  blip : Option Blip
deriving DecidableEq, Repr

/-- The `localName` by which the shape filter classifies nodes
(`node.localName === 'sp' || node.localName === 'pic'`). -/
inductive ShapeKind where
  | sp
  | pic
deriving DecidableEq, Repr

/-- Offset element `a:off`; `x`/`y` hold `parseInt(attr || "0")` (missing
attribute ⇒ `0`, non-numeric attribute ⇒ `nan`). -/
structure XfrmOff where
  x : JsNum
  y : JsNum
deriving DecidableEq, Repr

/-- Extent element `a:ext`; `cx`/`cy` hold `parseInt(attr || "0")`. -/
structure XfrmExt where
  cx : JsNum
  cy : JsNum
deriving DecidableEq, Repr

/-- Transform element `a:xfrm` with its optional offset and extent children. -/
structure Xfrm where
  off : Option XfrmOff
  ext : Option XfrmExt
deriving DecidableEq, Repr

/-- A shape node from the slide's shape tree (an `sp` or `pic` element),
with the descendants the extractor reads. -/
structure Shape where
  localName : ShapeKind
  xfrm : Option Xfrm
  blipFill : Option BlipFill
  txBody : Option (List Paragraph)
deriving DecidableEq, Repr

/-! ## Text extraction -/

/-- The block-level style fields captured from the first styled run
(`fontSize`, `color`, `fontWeight`, `fontStyle`, `fontFamily`); `textAlign`
is tracked separately because it is set per paragraph, not per run. -/
structure StyleBlock where
  fontSize : String
  color : String
  fontWeight : String
  fontStyle : String
  fontFamily : String
deriving DecidableEq, Repr

/-- The defaults initialised before the paragraph loop. -/
def initStyle : StyleBlock :=
  { fontSize := "14px", color := "#333333", fontWeight := "normal",
    fontStyle := "normal", fontFamily := "Arial" }

/-- Accumulator of the paragraph/run loop: concatenated text, block style,
and current `textAlign`. -/
structure TextAcc where
  fullText : List Char
  style : StyleBlock
  textAlign : String
deriving DecidableEq, Repr

/-- Accumulator state before the paragraph loop. -/
def initAcc : TextAcc := { fullText := [], style := initStyle, textAlign := "left" }

/-- `Math.round(parseInt(sz) / 100)` in integer arithmetic (see
`fontSizeRound_eq_round`). -/
def fontSizeRound (sz : ℤ) : ℤ := Int.fdiv (2 * sz + 100) 200

/-- The integer-arithmetic font-size rounding is exactly
`Math.round(sz / 100)`. -/
theorem fontSizeRound_eq_round (sz : ℤ) : fontSizeRound sz = jsRound ((sz : ℚ) / 100) := by
  have h := emuToPxZ_eq_round 1 100 sz (by norm_num)
  unfold emuToPxZ at h
  unfold fontSizeRound
  norm_num at h ⊢
  exact h

/-- Style capture from run properties: each field is overwritten only when
the corresponding attribute/child is present (`sz`, `b === "1"`,
`i === "1"`, `solidFill`→`srgbClr`→`val`, `latin`→`typeface`). -/
def applyRPr (s : StyleBlock) (pr : RunProps) : StyleBlock :=
  let s1 := match pr.sz with
    | some sz => { s with fontSize := toString (fontSizeRound sz) ++ "px" }
    | none => s
  let s2 := if pr.b = some "1" then { s1 with fontWeight := "bold" } else s1
  let s3 := if pr.i = some "1" then { s2 with fontStyle := "italic" } else s2
  let s4 := match pr.solidFill with
    | some sf =>
      match sf.srgbClr with
      | some sc =>
        match sc.val with
        | some v => { s3 with color := "#" ++ v }
        | none => s3
      | none => s3
    | none => s3
  match pr.latin with
  | some lt =>
    match lt.typeface with
    | some tf => { s4 with fontFamily := tf }
    | none => s4
  | none => s4

/-- One iteration of the run loop: if the run has a non-empty `a:t`, append
its text; capture style from the run's properties exactly when the appended
text is the whole accumulated text (`fullText.length === t.textContent.length`)
and the run carries `rPr`. -/
def processRun (acc : TextAcc) (r : Run) : TextAcc :=
  match r.t with
  | none => acc
  | some t =>
    if t = [] then acc
    else
      let acc1 := { acc with fullText := acc.fullText ++ t }
      match r.rPr with
      | some pr =>
        if acc1.fullText.length = t.length then { acc1 with style := applyRPr acc1.style pr }
        else acc1
      | none => acc1

/-- One iteration of the paragraph loop: read the alignment code from `pPr`
(`ctr` ⇒ center, `r` ⇒ right, anything else leaves the current value), then
run the run loop. -/
def processPara (acc : TextAcc) (p : Paragraph) : TextAcc :=
  let acc1 := match p.pPr with
    | some algn =>
      let acc' := if algn = some "ctr" then { acc with textAlign := "center" } else acc
      if algn = some "r" then { acc' with textAlign := "right" } else acc'
    | none => acc
  p.runs.foldl processRun acc1

/-- The whole paragraph loop, inserting `"\n"` after every paragraph except
the last (`if (p < paragraphs.length - 1) fullText += "\n"`). -/
def processParas (acc : TextAcc) : List Paragraph → TextAcc
  | [] => acc
  | [p] => processPara acc p
  | p :: q :: rest =>
    let acc' := processPara acc p
    processParas { acc' with fullText := acc'.fullText ++ ['\n'] } (q :: rest)

/-! ## Decoded element model -/

/-- `type` field of a decoded `ReportElement` (imports produce only text and
image elements). -/
inductive EType where
  | text
  | image
deriving DecidableEq, Repr

/-- The `style` object pushed with a text element. -/
structure ElementStyle where
  fontSize : String
  color : String
  fontWeight : String
  fontStyle : String
  textAlign : String
  fontFamily : String
deriving DecidableEq, Repr

/-- A decoded `ReportElement` (the `Date.now()`-based `id` string is
environmental and not modelled). -/
structure ReportElement where
  typ : EType
  content : String
  x : JsNum
  y : JsNum
  w : JsNum
  h : JsNum
  zIndex : ℕ
  style : Option ElementStyle
deriving DecidableEq, Repr

/-- JS `trim` (strip leading/trailing whitespace), on character lists. -/
def jsTrim (l : List Char) : List Char :=
  ((l.dropWhile Char.isWhitespace).reverse.dropWhile Char.isWhitespace).reverse

/-- Truthiness filter for an attribute value: `null` and `""` are falsy. -/
def jsTruthy : Option String → Option String
  | some s => if s = "" then none else some s
  | none => none

/-- JS `a || b` on attribute lookups (`blip?.getAttribute("r:embed") ||
blip?.getAttribute("embed")`). -/
def jsOrAttr (a b : Option String) : Option String :=
  match jsTruthy a with
  | some s => some s
  | none => jsTruthy b

/-- One iteration of the shape loop of `handlePptxUpload`: transform lookup,
unit conversion, minimum-size guard, then the picture branch or the text
branch.  `rels` is the slide's relationship map, `media` the archive content
lookup (`none`: entry absent; `some none`: entry present but the blob load
failed; `some (some data)`: loaded data URL).  `index` is the position in the
filtered shape list; a skipped shape yields `none`. -/
def decodeShape (canvasW pptW : ℤ) (rels : String → Option String)
    (media : String → Option (Option String)) (index : ℕ) (sh : Shape) :
    Option ReportElement :=
  match sh.xfrm with
  | none => none
  | some xf =>
    match xf.off, xf.ext with
    | some off, some ext =>
      let x := emuToPx canvasW pptW off.x
      let y := emuToPx canvasW pptW off.y
      let w := emuToPx canvasW pptW ext.cx
      let h := emuToPx canvasW pptW ext.cy
      if jsLt w 5 || jsLt h 5 then none
      else
        match sh.localName with
        | .pic =>
          match sh.blipFill with
          | none => none
          | some bf =>
            match bf.blip with
            | none => none
            | some bl =>
              match jsOrAttr bl.rEmbed bl.embed with
              | none => none
              | some embedId =>
                match rels embedId with
                | none => none
                | some imgPath =>
                  match media imgPath with
                  | some (some base64) =>
                    some { typ := .image, content := base64, x := x, y := y,
                           w := w, h := h, zIndex := index + 1, style := none }
                  | _ => none
        | .sp =>
          match sh.txBody with
          | none => none
          | some paras =>
            let acc := processParas initAcc paras
            if jsTrim acc.fullText = [] then none
            else
              some { typ := .text, content := ⟨acc.fullText⟩,
                     x := jsMax 0 x, y := jsMax 0 y,
                     w := jsMax 50 w, h := jsMax 20 h,
                     zIndex := index + 1,
                     style := some { fontSize := acc.style.fontSize,
                                     color := acc.style.color,
                                     fontWeight := acc.style.fontWeight,
                                     fontStyle := acc.style.fontStyle,
                                     textAlign := acc.textAlign,
                                     fontFamily := acc.style.fontFamily } }
    | _, _ => none

/-- The shape loop over one slide's filtered shape list (`zIndex` comes from
the position in that list, skipped shapes included). -/
def decodeShapes (canvasW pptW : ℤ) (rels : String → Option String)
    (media : String → Option (Option String)) (shapes : List Shape) :
    List ReportElement :=
  shapes.enum.filterMap fun p => decodeShape canvasW pptW rels media p.1 p.2

/-! ## String scanning: the `replace` call and the slide-name patterns -/

/-- JS `String.prototype.replace` with a string pattern: replace the first
occurrence of `pat` (scanning left to right), or return the list unchanged
when there is none. -/
def replaceFirstAux (pat rep : List Char) : List Char → List Char
  | [] => []
  | c :: cs =>
    if pat.isPrefixOf (c :: cs) then rep ++ (c :: cs).drop pat.length
    else c :: replaceFirstAux pat rep cs

/-- JS `s.replace(pat, rep)` for string patterns, on `String`. -/
def jsReplaceFirst (s pat rep : String) : String :=
  ⟨replaceFirstAux pat.toList rep.toList s.toList⟩

/-- JS `s.startsWith(pat)`. -/
def jsStartsWith (s pat : String) : Bool :=
  pat.toList.isPrefixOf s.toList

/-- Maximal leading digit run of a character list. -/
def digitRun : List Char → List Char × List Char
  | [] => ([], [])
  | c :: cs =>
    if c.isDigit then
      let (d, r) := digitRun cs
      (c :: d, r)
    else ([], c :: cs)

/-- After a literal prefix, match `\d+\.xml` (at least one digit, then
`.xml`), returning the digit run.  Greedy digit matching needs no
backtracking here because `.xml` cannot start with a digit. -/
def matchNumXml (l : List Char) : Option (List Char) :=
  let (ds, rest) := digitRun l
  if ds ≠ [] ∧ ".xml".toList.isPrefixOf rest then some ds else none

/-- Leftmost match of the (unanchored) regex `slide(\d+)\.xml`, returning
the captured digits. -/
def findSlideDigits : List Char → Option (List Char)
  | [] => none
  | c :: cs =>
    if "slide".toList.isPrefixOf (c :: cs) then
      match matchNumXml ((c :: cs).drop 5) with
      | some ds => some ds
      | none => findSlideDigits cs
    else findSlideDigits cs

/-- Does the (unanchored) regex `ppt\/slides\/slide\d+\.xml` match
somewhere in the list? -/
def matchesSlideEntryAux : List Char → Bool
  | [] => false
  | c :: cs =>
    ("ppt/slides/slide".toList.isPrefixOf (c :: cs) &&
      (matchNumXml ((c :: cs).drop 16)).isSome)
    || matchesSlideEntryAux cs

/-- The slide-file filter `name.match(/ppt\/slides\/slide\d+\.xml/)`. -/
def matchesSlideEntry (s : String) : Bool :=
  matchesSlideEntryAux s.toList

/-- Decimal value of a digit run (what `parseInt` returns on the capture). -/
def digitsToNat (ds : List Char) : ℕ :=
  ds.foldl (fun n c => 10 * n + (c.toNat - '0'.toNat)) 0

/-- `parseInt(name.match(/slide(\d+)\.xml/)![1])`; `none` when the regex does
not match (the source's non-null assertion is sound because the sort only
sees names accepted by `matchesSlideEntry`). -/
def slideNum (s : String) : Option ℕ :=
  (findSlideDigits s.toList).map digitsToNat

/-- Sort key used by the comparator `(a, b) => numA - numB`. -/
def slideKey (s : String) : ℕ := (slideNum s).getD 0

/-- The slide-file enumeration: filter the archive's entry names by the
slide pattern, then sort by numeric suffix.  JS `Array.prototype.sort` is a
stable sort and the comparator is a total preorder on the key, so the result
is the (unique) stable key-sort, modelled by `List.insertionSort`. -/
def sortSlideFiles (names : List String) : List String :=
  List.insertionSort (fun a b => slideKey a ≤ slideKey b) (names.filter matchesSlideEntry)

/-! ## Relationship resolution -/

/-- One `Relationship` element of a `.rels` part (its `Id` and `Target`
attributes). -/
structure Relationship where
  id : Option String
  target : Option String
deriving DecidableEq, Repr

/-- Target normalization: `if (target.startsWith('../')) cleanTarget =
target.replace('../', 'ppt/')`. -/
def cleanTarget (target : String) : String :=
  if jsStartsWith target "../" then jsReplaceFirst target "../" "ppt/" else target

/-- One iteration of the relationship loop (`if (id && target)
relsMap[id] = cleanTarget`): extend the map when both attributes are
truthy, overwriting any earlier binding of the same id. -/
def relsStep (m : String → Option String) (r : Relationship) : String → Option String :=
  match jsTruthy r.id, jsTruthy r.target with
  | some idv, some t => fun k => if k = idv then some (cleanTarget t) else m k
  | _, _ => m

/-- Build the per-slide relationship map: record `id → cleanTarget` for every
relationship whose `Id` and `Target` are both truthy. -/
def buildRelsMap (rels : List Relationship) : String → Option String :=
  rels.foldl relsStep (fun _ => none)

/-- `slideFile.replace("ppt/slides/", "ppt/slides/_rels/") + ".rels"`. -/
def relsFileName (slideFile : String) : String :=
  jsReplaceFirst slideFile "ppt/slides/" "ppt/slides/_rels/" ++ ".rels"

/-! ## The archive and the whole decode -/

/-- The opened zip container, as the decode observes it.
* `fileNames` — `Object.keys(content.files)`.
* `presentationCx` — outer `none` when `ppt/presentation.xml` is absent or
  unreadable; inner `none` when it has no `sldSz` element; otherwise
  `parseInt(sldSz.getAttribute("cx") || "0")`.
* `slideXml f` — the filtered `sp`/`pic` node list of slide entry `f` in
  document order, or `none` when the entry's text is absent or empty
  (`if (!slideXmlStr) continue`).
* `relsXml f` — the `Relationship` elements of part `f`, or `none` when the
  part is absent.
* `media f` — binary entry lookup: `none` when `content.file(f)` is null,
  `some none` when the blob/data-URL load fails, `some (some dataUrl)` on
  success. -/
structure Archive where
  fileNames : List String
  presentationCx : Option (Option JsNum)
  slideXml : String → Option (List Shape)
  relsXml : String → Option (List Relationship)
  media : String → Option (Option String)

/-- `pptWidthEmu`: the declared page width when it parses to a positive
number, else `DEFAULT_PPT_WIDTH_EMU`. -/
def pptWidthEmu (a : Archive) : ℤ :=
  match a.presentationCx with
  | some (some (.num v)) => if 0 < v then v else DEFAULT_PPT_WIDTH_EMU
  | _ => DEFAULT_PPT_WIDTH_EMU

/-- The slide's relationship map (`relsMap`); an absent `.rels` part yields
the empty map. -/
def slideRelsMap (a : Archive) (slideFile : String) : String → Option String :=
  match a.relsXml (relsFileName slideFile) with
  | some rels => buildRelsMap rels
  | none => fun _ => none

/-- The ordered slide-file list of the archive. -/
def slideFilesOf (a : Archive) : List String :=
  sortSlideFiles a.fileNames

/-- The whole decode (`newSlides`): one `(entry name, element list)` pair per
slide entry whose content loaded, in numeric-suffix order; a slide with an
unreadable entry is skipped (`continue`), a slide with zero decoded elements
is still emitted. -/
def decodePptx (a : Archive) : List (String × List ReportElement) :=
  (slideFilesOf a).filterMap fun f =>
    (a.slideXml f).map fun shapes =>
      (f, decodeShapes CANVAS_WIDTH (pptWidthEmu a) (slideRelsMap a f) a.media shapes)

/-- The empty-result signal: the import is suppressed and the
"No recognizable text or images found." notice shown exactly when
`newSlides.length === 0`. -/
def pptxEmptyResult (a : Archive) : Bool :=
  (decodePptx a).isEmpty

/-! ## Export placement (`generateCustomReport`) -/

/-- `PPT_WIDTH_INCH` (the fixed `LAYOUT_16x9` page width). -/
def PPT_WIDTH_INCH : ℚ := 10

/-- `PPT_HEIGHT_INCH` (5.625 inches). -/
def PPT_HEIGHT_INCH : ℚ := 45 / 8

/-- The per-element canvas fractions (`xPercent`, `yPercent`, `wPercent`,
`hPercent`). -/
def canvasFraction (canvasWidth canvasHeight x y w h : ℚ) : ℚ × ℚ × ℚ × ℚ :=
  (x / canvasWidth, y / canvasHeight, w / canvasWidth, h / canvasHeight)

/-- The placement passed to `slide.addImage`: each fraction scaled by the
fixed output page dimensions. -/
def exportPlacement (canvasWidth canvasHeight x y w h : ℚ) : ℚ × ℚ × ℚ × ℚ :=
  let f := canvasFraction canvasWidth canvasHeight x y w h
  (f.1 * PPT_WIDTH_INCH, f.2.1 * PPT_HEIGHT_INCH,
   f.2.2.1 * PPT_WIDTH_INCH, f.2.2.2 * PPT_HEIGHT_INCH)

/-- **C8.** Export placement is the element's bounding box as fractions of
the canvas, scaled by the fixed 10×5.625-inch page; the element at
(480, 270) with size (480, 270) on the 960×540 canvas has fractions
(0.5, 0.5, 0.5, 0.5) and lands exactly on the center-to-corner quadrant
(5, 2.8125, 5, 2.8125) of the output page. -/
theorem exportPlacement_fraction_of_canvas :
    (∀ x y w h : ℚ, exportPlacement 960 540 x y w h =
      (x / 960 * 10, y / 540 * (45 / 8), w / 960 * 10, h / 540 * (45 / 8))) ∧
    canvasFraction 960 540 480 270 480 270 = (1/2, 1/2, 1/2, 1/2) ∧
    exportPlacement 960 540 480 270 480 270 =
      ((1/2) * 10, (1/2) * (45/8), (1/2) * 10, (1/2) * (45/8)) ∧
    exportPlacement 960 540 480 270 480 270 = (5, 45/16, 5, 45/16) := by
  refine ⟨fun x y w h => rfl, by norm_num [canvasFraction], ?_, ?_⟩ <;>
    norm_num [exportPlacement, canvasFraction, PPT_WIDTH_INCH, PPT_HEIGHT_INCH]

/-- **C9.** Unit conversion is total: the native width is the declared `cx`
when it parses to a positive integer, and the fixed fallback `9144000`
(10-inch page) when the descriptor is absent, has no size element, the
attribute is unparsable (`NaN`), or is non-positive; the resulting width is
always positive, so a scale factor is always obtained. -/
theorem pptWidthEmu_total (a : Archive) :
    0 < pptWidthEmu a ∧
    DEFAULT_PPT_WIDTH_EMU = 9144000 ∧
    (a.presentationCx = none → pptWidthEmu a = 9144000) ∧
    (a.presentationCx = some none → pptWidthEmu a = 9144000) ∧
    (a.presentationCx = some (some .nan) → pptWidthEmu a = 9144000) ∧
    (∀ v : ℤ, v ≤ 0 → a.presentationCx = some (some (.num v)) → pptWidthEmu a = 9144000) ∧
    (∀ v : ℤ, 0 < v → a.presentationCx = some (some (.num v)) → pptWidthEmu a = v) := by
  have hd : (0 : ℤ) < DEFAULT_PPT_WIDTH_EMU := by decide
  refine ⟨?_, rfl, ?_, ?_, ?_, ?_, ?_⟩
  · unfold pptWidthEmu
    rcases h : a.presentationCx with _ | ⟨_ | ⟨j⟩⟩
    · exact hd
    · exact hd
    · rcases j with v | _
      · by_cases hv : 0 < v
        · simp [hv]
        · simpa [hv] using hd
      · exact hd
  · intro h; simp [pptWidthEmu, h, DEFAULT_PPT_WIDTH_EMU]
  · intro h; simp [pptWidthEmu, h, DEFAULT_PPT_WIDTH_EMU]
  · intro h; simp [pptWidthEmu, h, DEFAULT_PPT_WIDTH_EMU]
  · intro v hv h; simp [pptWidthEmu, h, DEFAULT_PPT_WIDTH_EMU, not_lt.mpr hv]
  · intro v hv h; simp [pptWidthEmu, h, hv]

/-- An archive with no presentation descriptor at all (used to instantiate
the fallback-width theorem). -/
def bareArchive : Archive :=
  { fileNames := [], presentationCx := none,
    slideXml := fun _ => none, relsXml := fun _ => none, media := fun _ => none }

/-- Closed instance of `pptWidthEmu_total`: with the descriptor absent the
fallback width is substituted. -/
theorem pptWidthEmu_total_witness : pptWidthEmu bareArchive = 9144000 :=
  (pptWidthEmu_total bareArchive).2.2.1 rfl

/-- **C5.** Imported slides are ordered by the integer suffix of the slide
entry name, ascending numerically: the sorted list is always
non-decreasing in the numeric key, and the eleven entries
`slide1.xml … slide11.xml` presented in lexicographic order come out in the
numeric order 1, 2, …, 10, 11 — never the lexicographic order
1, 10, 11, 2, …. -/
theorem slideFiles_numeric_order :
    (∀ names : List String,
      List.Pairwise (fun a b => slideKey a ≤ slideKey b) (sortSlideFiles names)) ∧
    sortSlideFiles
      ["ppt/slides/slide1.xml", "ppt/slides/slide10.xml", "ppt/slides/slide11.xml",
       "ppt/slides/slide2.xml", "ppt/slides/slide3.xml", "ppt/slides/slide4.xml",
       "ppt/slides/slide5.xml", "ppt/slides/slide6.xml", "ppt/slides/slide7.xml",
       "ppt/slides/slide8.xml", "ppt/slides/slide9.xml"] =
      ["ppt/slides/slide1.xml", "ppt/slides/slide2.xml", "ppt/slides/slide3.xml",
       "ppt/slides/slide4.xml", "ppt/slides/slide5.xml", "ppt/slides/slide6.xml",
       "ppt/slides/slide7.xml", "ppt/slides/slide8.xml", "ppt/slides/slide9.xml",
       "ppt/slides/slide10.xml", "ppt/slides/slide11.xml"] := by
  constructor
  · intro names
    haveI ht : IsTotal String (fun a b => slideKey a ≤ slideKey b) :=
      ⟨fun a b => Nat.le_total (slideKey a) (slideKey b)⟩
    haveI htr : IsTrans String (fun a b => slideKey a ≤ slideKey b) :=
      ⟨fun _ _ _ hab hbc => le_trans hab hbc⟩
    exact List.sorted_insertionSort _ _
  · decide

/-- A text shape whose converted size is 4×4 px under the default scale
(38100 EMU · 960/9144000 = 4). -/
def shapeBelowThreshold : Shape :=
  { localName := .sp,
    xfrm := some { off := some { x := .num 0, y := .num 0 },
                   ext := some { cx := .num 38100, cy := .num 38100 } },
    blipFill := none,
    txBody := some [{ pPr := none, runs := [{ t := some ['A'], rPr := none }] }] }

/-- The same text shape with converted size 5×5 px (47625 EMU). -/
def shapeAtThreshold : Shape :=
  { localName := .sp,
    xfrm := some { off := some { x := .num 0, y := .num 0 },
                   ext := some { cx := .num 47625, cy := .num 47625 } },
    blipFill := none,
    txBody := some [{ pPr := none, runs := [{ t := some ['A'], rPr := none }] }] }

/-- **C6.** A shape whose converted width or height is below the 5-pixel
minimum-visible threshold is dropped and contributes no element; concretely,
a 4×4 shape is absent from the decoded element list while a 5×5 shape is
present. -/
theorem minVisible_threshold :
    (∀ (cw pw : ℤ) (rels : String → Option String)
      (media : String → Option (Option String)) (i : ℕ) (sh : Shape)
      (xf : Xfrm) (off : XfrmOff) (ext : XfrmExt),
      sh.xfrm = some xf → xf.off = some off → xf.ext = some ext →
      (jsLt (emuToPx cw pw ext.cx) 5 || jsLt (emuToPx cw pw ext.cy) 5) = true →
      decodeShape cw pw rels media i sh = none) ∧
    decodeShapes 960 9144000 (fun _ => none) (fun _ => none) [shapeBelowThreshold] = [] ∧
    (decodeShapes 960 9144000 (fun _ => none) (fun _ => none) [shapeAtThreshold]).length = 1 := by
  refine ⟨?_, by decide, by decide⟩
  intro cw pw rels media i sh xf off ext hxf hoff hext hsmall
  simp [decodeShape, hxf, hoff, hext, hsmall]

/-- Closed instance of `minVisible_threshold`: the 4×4 shape is skipped. -/
theorem minVisible_threshold_witness :
    decodeShape 960 9144000 (fun _ => none) (fun _ => none) 0 shapeBelowThreshold = none :=
  minVisible_threshold.1 960 9144000 (fun _ => none) (fun _ => none) 0
    shapeBelowThreshold _ _ _ rfl rfl rfl (by decide)

/-- A text shape whose offset `x` attribute is non-numeric (`parseInt` gives
`NaN`) but whose extent is a healthy 100×100 px (952500 EMU). -/
def nanOffsetShape : Shape :=
  { localName := .sp,
    xfrm := some { off := some { x := .nan, y := .num 0 },
                   ext := some { cx := .num 952500, cy := .num 952500 } },
    blipFill := none,
    txBody := some [{ pPr := none, runs := [{ t := some ['H', 'i'], rPr := none }] }] }

/-- **C3.** Evaluation of the decoder at a shape with a non-numeric offset
attribute: the shape is *not* skipped — `NaN < 5` is `false`, so the
minimum-size guard passes, and a text element with `x = NaN`
(`Math.max(0, NaN) = NaN`) is pushed into the slide's element list. -/
theorem malformedGeometry_not_skipped :
    (decodeShapes 960 9144000 (fun _ => none) (fun _ => none) [nanOffsetShape]).length = 1 ∧
    ∀ el ∈ decodeShapes 960 9144000 (fun _ => none) (fun _ => none) [nanOffsetShape],
      el.typ = .text ∧ el.x = .nan ∧ jsGe el.x 0 = false := by
  decide

/-- Every binding produced by the relationship fold comes from some
relationship in the list, with the normalized target. -/
theorem buildRelsMap_go (rels : List Relationship) :
    ∀ (m : String → Option String) (k v : String),
      (rels.foldl relsStep m) k = some v →
      (∃ r ∈ rels, jsTruthy r.id = some k ∧
        ∃ t, jsTruthy r.target = some t ∧ v = cleanTarget t) ∨ m k = some v := by
  induction rels with
  | nil => intro m k v h; exact Or.inr h
  | cons r rs ih =>
    intro m k v h
    simp only [List.foldl_cons] at h
    rcases ih (relsStep m r) k v h with hrec | hbase
    · rcases hrec with ⟨r', hr', hrest⟩
      exact Or.inl ⟨r', List.mem_cons_of_mem _ hr', hrest⟩
    · unfold relsStep at hbase
      rcases hid : jsTruthy r.id with _ | idv <;> rw [hid] at hbase <;>
        [skip; rcases htg : jsTruthy r.target with _ | tv <;> rw [htg] at hbase] <;>
        dsimp only at hbase
      · exact Or.inr hbase
      · exact Or.inr hbase
      · by_cases hk : k = idv
        · subst hk
          rw [if_pos rfl] at hbase
          injection hbase with hv
          exact Or.inl ⟨r, List.mem_cons_self r rs, hid, tv, htg, hv.symm⟩
        · rw [if_neg hk] at hbase
          exact Or.inr hbase

/-- **C7.** Relationship-map construction normalizes each target by
rewriting a leading `../` to `ppt/`: a target starting with `../` is
recorded with that prefix replaced by `ppt/` (so `../media/image1.png`
becomes `ppt/media/image1.png`), a target not starting with `../` is
recorded unchanged, and every recorded binding is the normalization of
some relationship's target. -/
theorem relsMap_normalizes_targets :
    (∀ t : String, jsStartsWith t "../" = true →
      cleanTarget t = "ppt/" ++ String.mk (t.toList.drop 3)) ∧
    (∀ t : String, jsStartsWith t "../" = false → cleanTarget t = t) ∧
    cleanTarget "../media/image1.png" = "ppt/media/image1.png" ∧
    (∀ (rels : List Relationship) (k v : String),
      buildRelsMap rels k = some v →
      ∃ r ∈ rels, jsTruthy r.id = some k ∧
        ∃ t, jsTruthy r.target = some t ∧ v = cleanTarget t) := by
  refine ⟨?_, ?_, by decide, ?_⟩
  · intro t h
    have hpre : "../".toList.isPrefixOf t.toList = true := h
    rw [List.isPrefixOf_iff_prefix] at hpre
    rcases hpre with ⟨rest, hrest⟩
    unfold cleanTarget
    rw [if_pos h]
    unfold jsReplaceFirst
    cases ht : t.toList with
    | nil => rw [ht] at hrest; exact absurd hrest (by simp)
    | cons c cs =>
      rw [ht] at hrest
      have hpre2 : "../".toList.isPrefixOf (c :: cs) = true := by
        rw [List.isPrefixOf_iff_prefix]
        exact ⟨rest, hrest⟩
      simp only [replaceFirstAux, hpre2, if_true]
      have h3 : (3 : ℕ) = ("../".toList).length := rfl
      rw [← hrest, h3, List.drop_left]
      rfl
  · intro t h
    unfold cleanTarget
    rw [if_neg (by simp [h])]
  · intro rels k v h
    rcases buildRelsMap_go rels (fun _ => none) k v h with hr | hbase
    · exact hr
    · exact absurd hbase (by simp)

/-- Closed instance of `relsMap_normalizes_targets`: the map built from the
single relationship `rId1 → ../media/image1.png` records the normalized
root-relative path. -/
theorem relsMap_normalizes_targets_witness :
    cleanTarget "../media/image1.png" = "ppt/" ++ String.mk (("../media/image1.png" : String).toList.drop 3) :=
  relsMap_normalizes_targets.1 "../media/image1.png" (by decide)

/-- An archive with exactly one readable slide entry whose shape tree yields
no elements. -/
def oneEmptySlideArchive : Archive :=
  { fileNames := ["ppt/slides/slide1.xml"],
    presentationCx := none,
    slideXml := fun f => if f = "ppt/slides/slide1.xml" then some [] else none,
    relsXml := fun _ => none,
    media := fun _ => none }

/-- **C2 (counterexample).** An archive with one readable slide that yields
zero elements: no slide produced any element, yet the decode emits the blank
slide and the empty-result signal is *not* raised — the signal tracks
`newSlides.length === 0`, not element production. -/
theorem emptyResult_signal_cex :
    pptxEmptyResult oneEmptySlideArchive = false ∧
    decodePptx oneEmptySlideArchive ≠ [] ∧
    ∀ s ∈ decodePptx oneEmptySlideArchive, s.2 = [] := by
  refine ⟨by decide, by decide, ?_⟩
  decide

/-- **C2 (amended).** Decoding emits one slide per slide entry whose content
loads, even when that slide yields zero elements; the empty-result signal is
raised exactly when *no slide entry was decoded at all* (every slide file's
content failed to load, or there were none) — not when the decoded slides
happen to contain zero elements. -/
theorem decode_slide_emission (a : Archive) :
    (pptxEmptyResult a = true ↔ ∀ f ∈ slideFilesOf a, a.slideXml f = none) ∧
    (∀ (f : String) (shapes : List Shape), f ∈ slideFilesOf a → a.slideXml f = some shapes →
      (f, decodeShapes CANVAS_WIDTH (pptWidthEmu a) (slideRelsMap a f) a.media shapes)
        ∈ decodePptx a) := by
  constructor
  · rw [pptxEmptyResult, List.isEmpty_iff, decodePptx, List.filterMap_eq_nil_iff]
    constructor
    · intro h f hf
      have := h f hf
      rwa [Option.map_eq_none'] at this
    · intro h f hf
      rw [Option.map_eq_none']
      exact h f hf
  · intro f shapes hf hx
    rw [decodePptx]
    exact List.mem_filterMap.mpr ⟨f, hf, by rw [hx]; rfl⟩

/-- Closed instance of `decode_slide_emission`: the elementless slide of
`oneEmptySlideArchive` is emitted. -/
theorem decode_slide_emission_witness :
    ("ppt/slides/slide1.xml",
      decodeShapes CANVAS_WIDTH (pptWidthEmu oneEmptySlideArchive)
        (slideRelsMap oneEmptySlideArchive "ppt/slides/slide1.xml")
        oneEmptySlideArchive.media [])
      ∈ decodePptx oneEmptySlideArchive :=
  (decode_slide_emission oneEmptySlideArchive).2 "ppt/slides/slide1.xml" []
    (by decide) (by decide)

/-- A text shape whose offset `x` attribute is non-numeric while the extent
is numeric (for the clamping counterexample). -/
def nanOffsetTextShape : Shape :=
  { localName := .sp,
    xfrm := some { off := some { x := .nan, y := .num 0 },
                   ext := some { cx := .num 952500, cy := .num 952500 } },
    blipFill := none,
    txBody := some [{ pPr := none, runs := [{ t := some ['A'], rPr := none }] }] }

/-- **C10 (counterexample).** A text element produced from a shape with a
non-numeric offset attribute does *not* have clamped geometry: its `x` is
`NaN` (`Math.max(0, NaN) = NaN`), which is not "at least 0". -/
theorem text_clamping_cex :
    (decodeShapes 960 9144000 (fun _ => none) (fun _ => none) [nanOffsetTextShape]).length = 1 ∧
    ∀ el ∈ decodeShapes 960 9144000 (fun _ => none) (fun _ => none) [nanOffsetTextShape],
      el.typ = .text ∧ jsGe el.x 0 = false := by
  decide

/-- **C10 (amended).** For a shape whose transform attributes all parse as
numbers, a produced *text* element has clamped geometry — `x`, `y` are
`Math.max(0, ·)` of the converted offsets (hence ≥ 0) and `w`, `h` are
`Math.max(50, ·)`/`Math.max(20, ·)` of the converted extents (hence ≥ 50
and ≥ 20) — while a produced *image* element keeps the converted
coordinates unclamped. -/
theorem text_clamping (cw pw : ℤ) (rels : String → Option String)
    (media : String → Option (Option String)) (i : ℕ) (sh : Shape)
    (xf : Xfrm) (off : XfrmOff) (ext : XfrmExt) (vx vy vcx vcy : ℤ)
    (el : ReportElement)
    (hxf : sh.xfrm = some xf) (hoff : xf.off = some off) (hext : xf.ext = some ext)
    (hvx : off.x = .num vx) (hvy : off.y = .num vy)
    (hvcx : ext.cx = .num vcx) (hvcy : ext.cy = .num vcy)
    (hel : decodeShape cw pw rels media i sh = some el) :
    (sh.localName = .sp →
      el.x = .num (max 0 (emuToPxZ cw pw vx)) ∧
      el.y = .num (max 0 (emuToPxZ cw pw vy)) ∧
      el.w = .num (max 50 (emuToPxZ cw pw vcx)) ∧
      el.h = .num (max 20 (emuToPxZ cw pw vcy)) ∧
      jsGe el.x 0 = true ∧ jsGe el.y 0 = true ∧
      jsGe el.w 50 = true ∧ jsGe el.h 20 = true) ∧
    (sh.localName = .pic →
      el.x = .num (emuToPxZ cw pw vx) ∧ el.y = .num (emuToPxZ cw pw vy) ∧
      el.w = .num (emuToPxZ cw pw vcx) ∧ el.h = .num (emuToPxZ cw pw vcy)) := by
  unfold decodeShape at hel
  rw [hxf] at hel
  dsimp only at hel
  rw [hoff, hext] at hel
  dsimp only at hel
  rw [hvx, hvy, hvcx, hvcy] at hel
  constructor
  · intro hsp
    rw [hsp] at hel
    dsimp only at hel
    split at hel
    · exact absurd hel (by simp)
    · split at hel
      · exact absurd hel (by simp)
      · split at hel
        · exact absurd hel (by simp)
        · rw [Option.some.injEq] at hel
          subst hel
          refine ⟨rfl, rfl, rfl, rfl, ?_, ?_, ?_, ?_⟩ <;>
            simp [jsGe, jsMax, emuToPx]
  · intro hpic
    rw [hpic] at hel
    dsimp only at hel
    split at hel
    · exact absurd hel (by simp)
    · split at hel
      · exact absurd hel (by simp)
      · split at hel
        · exact absurd hel (by simp)
        · split at hel
          · exact absurd hel (by simp)
          · split at hel
            · exact absurd hel (by simp)
            · split at hel
              · rw [Option.some.injEq] at hel
                subst hel
                exact ⟨rfl, rfl, rfl, rfl⟩
              · exact absurd hel (by simp)

/-- A text shape with a negative converted offset (−9525 EMU → −1 px) and a
5×5 px extent, for instantiating the clamping theorem. -/
def smallTextShape : Shape :=
  { localName := .sp,
    xfrm := some { off := some { x := .num (-9525), y := .num 0 },
                   ext := some { cx := .num 47625, cy := .num 47625 } },
    blipFill := none,
    txBody := some [{ pPr := none, runs := [{ t := some ['A'], rPr := none }] }] }

/-- The element `smallTextShape` decodes to: offset clamped to 0, size
clamped up to 50×20. -/
def smallTextElement : ReportElement :=
  { typ := .text, content := "A", x := .num 0, y := .num 0, w := .num 50, h := .num 20,
    zIndex := 1,
    style := some { fontSize := "14px", color := "#333333", fontWeight := "normal",
                    fontStyle := "normal", textAlign := "left", fontFamily := "Arial" } }

/-- Closed instance of `text_clamping`: the 5×5 text shape at offset −1 px
decodes to a 50×20 element at the clamped origin. -/
theorem text_clamping_witness :
    jsGe smallTextElement.x 0 = true ∧ jsGe smallTextElement.y 0 = true ∧
    jsGe smallTextElement.w 50 = true ∧ jsGe smallTextElement.h 20 = true := by
  have h := (text_clamping 960 9144000 (fun _ => none) (fun _ => none) 0 smallTextShape
    _ _ _ (-9525) 0 47625 47625 smallTextElement rfl rfl rfl rfl rfl rfl rfl (by decide)).1 rfl
  exact ⟨h.2.2.2.2.1, h.2.2.2.2.2.1, h.2.2.2.2.2.2.1, h.2.2.2.2.2.2.2⟩

/-! ## The style-capture policy (C1) -/

/-- Does the run contribute text (`t && t.textContent` truthy)? -/
def hasText (r : Run) : Bool :=
  match r.t with
  | some t => !t.isEmpty
  | none => false

/-- The style policy as the specification words it: the first run anywhere
in the shape that carries run-properties wins, and fields it does not carry
keep their defaults.  Stated for comparison with the behaviour of
`processParas`. -/
def specFirstStyledRun (paras : List Paragraph) : StyleBlock :=
  match (paras.flatMap Paragraph.runs).find? (fun r => r.rPr.isSome) with
  | some r =>
    match r.rPr with
    | some pr => applyRPr initStyle pr
    | none => initStyle
  | none => initStyle

/-- The policy the code actually implements: the style comes from the first
text-carrying run of the *first paragraph*, and only when that same run
carries run-properties; every other configuration leaves the defaults. -/
def specAmendedStyle (paras : List Paragraph) : StyleBlock :=
  match paras with
  | [] => initStyle
  | p0 :: _ =>
    match p0.runs.find? hasText with
    | some r =>
      match r.rPr with
      | some pr => applyRPr initStyle pr
      | none => initStyle
    | none => initStyle

/-- One paragraph whose first run has text but no run-properties and whose
second run has text and a 24 pt size: the claimed policy would style the
block at 24 px, the code keeps the 14 px default. -/
def mixedRunsParas : List Paragraph :=
  [{ pPr := none,
     runs := [{ t := some ['A'], rPr := none },
              { t := some ['B'],
                rPr := some { sz := some 2400, b := none, i := none,
                              solidFill := none, latin := none } }] }]

/-- **C1 (counterexample).** With an unstyled first text run followed by a
styled second run, the decoded block style is *not* the style of the first
run carrying run-properties: the code keeps the default 14 px although the
first styled run asks for 24 px. -/
theorem firstStyledRun_cex :
    (processParas initAcc mixedRunsParas).style.fontSize = "14px" ∧
    (specFirstStyledRun mixedRunsParas).fontSize = "24px" ∧
    (processParas initAcc mixedRunsParas).style ≠ specFirstStyledRun mixedRunsParas := by
  decide

/-- Once some text has been accumulated, a further run never changes the
captured style, and the text stays non-empty. -/
theorem processRun_keep (acc : TextAcc) (r : Run) (h : acc.fullText ≠ []) :
    (processRun acc r).style = acc.style ∧ (processRun acc r).fullText ≠ [] := by
  unfold processRun
  cases hr : r.t with
  | none => exact ⟨rfl, h⟩
  | some t =>
    dsimp only
    by_cases ht : t = []
    · rw [if_pos ht]
      exact ⟨rfl, h⟩
    · rw [if_neg ht]
      have hne : acc.fullText ++ t ≠ [] := fun hh => h (List.append_eq_nil.mp hh).1
      cases hp : r.rPr with
      | none => exact ⟨rfl, hne⟩
      | some pr =>
        dsimp only
        have hlen : ¬((acc.fullText ++ t).length = t.length) := by
          rw [List.length_append]
          intro hh
          exact h (List.length_eq_zero.mp (by omega))
        rw [if_neg hlen]
        exact ⟨rfl, hne⟩

/-- `processRun_keep`, folded over a run list. -/
theorem foldl_processRun_keep (runs : List Run) : ∀ acc : TextAcc, acc.fullText ≠ [] →
    (runs.foldl processRun acc).style = acc.style ∧
    (runs.foldl processRun acc).fullText ≠ [] := by
  induction runs with
  | nil => intro acc h; exact ⟨rfl, h⟩
  | cons r rs ih =>
    intro acc h
    simp only [List.foldl_cons]
    obtain ⟨h1, h2⟩ := processRun_keep acc r h
    obtain ⟨h3, h4⟩ := ih _ h2
    exact ⟨h3.trans h1, h4⟩

/-- A whole paragraph keeps the captured style once text has been
accumulated (alignment may still change). -/
theorem processPara_keep (p : Paragraph) (acc : TextAcc) (h : acc.fullText ≠ []) :
    (processPara acc p).style = acc.style ∧ (processPara acc p).fullText ≠ [] := by
  unfold processPara
  cases hp : p.pPr with
  | none => exact foldl_processRun_keep p.runs acc h
  | some algn =>
    dsimp only
    split <;> split <;> exact foldl_processRun_keep p.runs _ h

/-- The remaining paragraphs keep the captured style once text has been
accumulated. -/
theorem processParas_keep (paras : List Paragraph) : ∀ acc : TextAcc, acc.fullText ≠ [] →
    (processParas acc paras).style = acc.style := by
  induction paras with
  | nil => intro acc h; rfl
  | cons p rest ih =>
    intro acc h
    cases rest with
    | nil => exact (processPara_keep p acc h).1
    | cons q rs =>
      have hpk := processPara_keep p acc h
      have h1 := ih { processPara acc p with fullText := (processPara acc p).fullText ++ ['\n'] }
        (by simp)
      exact h1.trans hpk.1

/-- A run without truthy text leaves the accumulator untouched. -/
theorem processRun_of_not_hasText (acc : TextAcc) (r : Run) (h : hasText r = false) :
    processRun acc r = acc := by
  unfold hasText at h
  unfold processRun
  cases hr : r.t with
  | none => rfl
  | some t =>
    rw [hr] at h
    simp only [Bool.not_eq_false'] at h
    dsimp only
    rw [if_pos (List.isEmpty_iff.mp h)]

/-- Unfolding of `processRun` on a run with non-empty text. -/
theorem processRun_capture (acc : TextAcc) (r : Run) (t : List Char) (ht : t ≠ [])
    (hr : r.t = some t) :
    processRun acc r =
      match r.rPr with
      | some pr =>
        if (acc.fullText ++ t).length = t.length then
          { acc with fullText := acc.fullText ++ t, style := applyRPr acc.style pr }
        else { acc with fullText := acc.fullText ++ t }
      | none => { acc with fullText := acc.fullText ++ t } := by
  unfold processRun
  rw [hr]
  dsimp only
  rw [if_neg ht]

/-- The run loop started with empty accumulated text captures the style of
the first text-carrying run exactly when that run carries run-properties. -/
theorem foldl_processRun_empty (runs : List Run) : ∀ acc : TextAcc, acc.fullText = [] →
    (runs.foldl processRun acc).style =
      (match runs.find? hasText with
       | some r =>
         match r.rPr with
         | some pr => applyRPr acc.style pr
         | none => acc.style
       | none => acc.style) := by
  induction runs with
  | nil => intro acc h; rfl
  | cons r rs ih =>
    intro acc h
    simp only [List.foldl_cons]
    cases hT : hasText r with
    | false =>
      rw [processRun_of_not_hasText acc r hT,
        List.find?_cons_of_neg _ (by simp [hT])]
      exact ih acc h
    | true =>
      rw [List.find?_cons_of_pos _ hT]
      unfold hasText at hT
      cases hr : r.t with
      | none => rw [hr] at hT; cases hT
      | some t =>
        rw [hr] at hT
        have ht : t ≠ [] := by intro hh; rw [hh] at hT; simp at hT
        rw [processRun_capture acc r t ht hr]
        cases hp : r.rPr with
        | some pr =>
          dsimp only
          have hcond : (acc.fullText ++ t).length = t.length := by rw [h]; simp
          rw [if_pos hcond]
          have hne : ({ acc with fullText := acc.fullText ++ t, style := applyRPr acc.style pr } : TextAcc).fullText ≠ [] := by
            dsimp only
            rw [h]
            simpa using ht
          obtain ⟨hs, _⟩ := foldl_processRun_keep rs _ hne
          rw [hs, hp]
        | none =>
          dsimp only
          have hne : ({ acc with fullText := acc.fullText ++ t } : TextAcc).fullText ≠ [] := by
            dsimp only
            rw [h]
            simpa using ht
          obtain ⟨hs, _⟩ := foldl_processRun_keep rs _ hne
          rw [hs, hp]

/-- **C1 (amended).** The style applied to the whole text block (font size
`sz/100` px, bold flag, italic flag, solid-fill RGB color, font family) is
taken from the *first text-carrying run of the first paragraph*, and only
when that same run carries run-properties; a first text run without
run-properties — or a first paragraph without any text run — leaves every
style field at its default even when later runs carry run-properties, and
any field the winning run does not carry keeps its default. -/
theorem blockStyle_policy (paras : List Paragraph) :
    (processParas initAcc paras).style = specAmendedStyle paras := by
  cases paras with
  | nil => rfl
  | cons p0 rest =>
    have hbase : ∀ acc0 : TextAcc, acc0.style = initStyle → acc0.fullText = [] →
        (p0.runs.foldl processRun acc0).style = specAmendedStyle (p0 :: rest) := by
      intro acc0 hs hf
      rw [foldl_processRun_empty p0.runs acc0 hf]
      unfold specAmendedStyle
      dsimp only
      cases hfind : p0.runs.find? hasText with
      | none => exact hs
      | some r =>
        dsimp only
        cases hrp : r.rPr with
        | none => exact hs
        | some pr =>
          dsimp only
          rw [hs]
    have hfirst : (processPara initAcc p0).style = specAmendedStyle (p0 :: rest) := by
      unfold processPara
      cases hp : p0.pPr with
      | none => exact hbase initAcc rfl rfl
      | some algn =>
        dsimp only
        split <;> split <;> exact hbase _ rfl rfl
    cases rest with
    | nil => exact hfirst
    | cons q rs =>
      have hkeep := processParas_keep (q :: rs)
        { processPara initAcc p0 with
            fullText := (processPara initAcc p0).fullText ++ ['\n'] } (by simp)
      exact hkeep.trans hfirst
